import Mathlib

/-! Verification development for the gc3pie repository core:
the Differential Evolution optimizer (gc3libs/optimizer/dif_evolution.py),
the session exit-code computation (gc3libs/cmdline.py), and the
batch-queue backend status parsers (gc3libs/backends/lsf.py, pbs.py).

Numbers are modelled as `Rat` (the Python code works on numpy float
arrays; all claims under scrutiny are order/selection properties that are
arithmetic-representation independent), populations as `List (List Rat)`,
and the global numpy random generator as an explicit threaded state.
-/

namespace GC3

/-- Canonical `gc3libs.Run.State` values (the subset used by the claims). -/
inductive RunState where
  | NEW
  | SUBMITTED
  | RUNNING
  | STOPPED
  | TERMINATING
  | TERMINATED
  | UNKNOWN
deriving DecidableEq, Repr

/-! Backend status parsers (lsf.py `_parse_stat_output`, pbs.py `_parse_stat_output`) -/

/-- Model of `LsfLrms._parse_stat_output`, restricted to the translation of the
already-extracted `STAT` field (`fields[2]`) into a canonical state. -/
def lsfParseStat (stat : String) : RunState :=
  if stat = "PEND" then RunState.SUBMITTED
  else if stat = "RUN" then RunState.RUNNING
  else if stat = "DONE" ∨ stat = "EXIT" then RunState.TERMINATING
  else RunState.UNKNOWN

/-- Does the first list lead the second (i.e. is it an initial segment)? -/
def leadMatch : List Char → List Char → Bool
  | [], _ => true
  | _ :: _, [] => false
  | a :: as, b :: bs => a == b && leadMatch as bs

/-- Does the pattern occur as a contiguous sublist? -/
def occursIn (t : List Char) : List Char → Bool
  | [] => leadMatch t []
  | c :: cs => leadMatch t (c :: cs) || occursIn t cs

/-- Model of the Python substring test `needle in hay` on strings. -/
def containsSubstr (hay needle : String) : Bool :=
  occursIn needle.toList hay.toList

/-- Model of `PbsLrms._parse_stat_output`, restricted to the translation of the
already-extracted `qstat` status field (`stdout.split()[4]`) into a
canonical state (the code stores it under the key `state`). -/
def pbsParseStat (job_status : String) : RunState :=
  if job_status = "Q" ∨ job_status = "W" then RunState.SUBMITTED
  else if job_status = "R" then RunState.RUNNING
  else if job_status = "S" ∨ job_status = "H" ∨ job_status = "T"
          ∨ containsSubstr job_status ("qh") then RunState.STOPPED
  else if job_status = "C" ∨ job_status = "E" then RunState.TERMINATING
  else RunState.UNKNOWN

/-! Session exit code (cmdline.py, `SessionBasedScript._main`, local `loop`) -/

/-- The state counts consulted by one `loop()` pass: the stats entries for `failed`,
`Run.State.RUNNING`, `Run.State.SUBMITTED` and `Run.State.NEW`. -/
structure SessionStats where
  failed : Nat
  running : Nat
  submitted : Nat
  newTasks : Nat
deriving DecidableEq, Repr

/-- Exit-code computation of `loop()`:
`rc = 0; if failed > 0: rc |= 2; if RUNNING or SUBMITTED: rc |= 4;
if NEW: rc |= 8; return rc`. -/
def sessionExitCode (stats : SessionStats) : Nat :=
  let rc : Nat := 0
  let rc : Nat := if stats.failed > 0 then rc ||| 2 else rc
  let rc : Nat := if stats.running > 0 ∨ stats.submitted > 0 then rc ||| 4 else rc
  let rc : Nat := if stats.newTasks > 0 then rc ||| 8 else rc
  rc

/-! Differential Evolution optimizer (optimizer/dif_evolution.py)

The numpy global random generator is modelled as an explicit state
`NpRandom` (the seed last passed to `np.random.seed`, plus a position in
the stream it determines).  The concrete values numpy would produce are
abstracted by an `NpModel`: a family of pure functions from (seed,
position) to draws.  Every stochastic primitive of the Python code
(`np.random.random_sample`, `np.random.permutation`) consumes the state
deterministically, exactly as the numpy global generator does. -/

/-- State of the global numpy random generator: the active seed and the
number of elementary draws consumed since seeding. -/
structure NpRandom where
  seed : Nat
  idx : Nat
deriving DecidableEq, Repr

/-- Pure model of the numpy generator output: `sample seed idx` is the
uniform float (in `[0,1)`) produced at stream position `idx` after
`np.random.seed seed`; `perm seed idx n` is the permutation of
`0, ..., n-1` returned by `np.random.permutation n` at that position. -/
structure NpModel where
  sample : Nat → Nat → Rat
  perm : Nat → Nat → Nat → List Nat

/-- Draw `k` uniform floats (`np.random.random_sample(k)`), advancing the
generator. -/
def sampleVec (M : NpModel) (g : NpRandom) (k : Nat) : List Rat × NpRandom :=
  ((List.range k).map (fun i => M.sample g.seed (g.idx + i)), ⟨g.seed, g.idx + k⟩)

/-- Draw one uniform float (`np.random.random_sample()`). -/
def sampleOne (M : NpModel) (g : NpRandom) : Rat × NpRandom :=
  (M.sample g.seed g.idx, ⟨g.seed, g.idx + 1⟩)

/-- Draw a `rows × cols` matrix of uniform floats
(`np.random.random_sample((rows, cols))`). -/
def sampleMat (M : NpModel) (g : NpRandom) (rows cols : Nat) :
    List (List Rat) × NpRandom :=
  ((List.range rows).map
      (fun r => (List.range cols).map (fun c => M.sample g.seed (g.idx + r * cols + c))),
   ⟨g.seed, g.idx + rows * cols⟩)

/-- Draw `np.random.permutation n`, advancing the generator by `n`. -/
def samplePerm (M : NpModel) (g : NpRandom) (n : Nat) : List Nat × NpRandom :=
  (M.perm g.seed g.idx n, ⟨g.seed, g.idx + n⟩)

/-- Severity of an emitted log record (`logging` levels used by the
constructor: `logger.debug` and `logger.warning`). -/
inductive LogLevel where
  | debug
  | info
  | warning
deriving DecidableEq, Repr

/-- The arguments of `DifferentialEvolution.__init__` that participate in
the modelled computation (loggers, plotting, working dir and the
matplotlib flag are I/O-only and omitted). -/
structure DEParams where
  dim : Nat
  pop_size : Nat
  de_step_size : Rat
  prob_crossover : Rat
  itermax : Int
  x_conv_crit : Rat
  y_conv_crit : Rat
  de_strategy : Nat
  lower_bds : List Rat
  upper_bds : List Rat
deriving DecidableEq, Repr

/-- Instance attributes of a `DifferentialEvolution` object.  `pop`,
`S_vals`, `S_bestval`, `S_bestvalit`, `I_best_index` are not assigned by
`__init__` (they first appear in `iterate`/`updatePopulation`); they are
given placeholder initial values here so that the state is a plain
record. -/
structure DEState where
  dim : Nat
  pop_size : Nat
  de_step_size : Rat
  prob_crossover : Rat
  itermax : Int
  x_conv_crit : Rat
  y_conv_crit : Rat
  de_strategy : Nat
  lower_bds : List Rat
  upper_bds : List Rat
  cur_iter : Int
  pop_old : List (List Rat)
  pop : List (List Rat)
  S_vals : List Rat
  S_bestval : Rat
  S_bestvalit : Rat
  best : List Rat
  best_iter : List Rat
  I_best_index : Nat
  n_fun_evals : Nat
deriving DecidableEq, Repr

/-- Result of running the constructor: the instance state, the log records
it emitted, and the global numpy generator state it left behind. -/
structure DEInitResult where
  state : DEState
  log : List (LogLevel × String)
  rng : NpRandom
deriving DecidableEq, Repr

/-- Model of `DifferentialEvolution.__init__`.  Here `ambient` is the state of the
global numpy generator at the moment of the call; the constructor ends
with `np.random.seed(1000)`, which discards it.  The out-of-range check
on `prob_crossover` replaces it by 0.5 and logs at DEBUG level; the
`pop_size < 5` check only logs a WARNING. -/
def deInit (ambient : NpRandom) (p : DEParams) : DEInitResult :=
  let pc : Rat :=
    if p.prob_crossover < 0 ∨ p.prob_crossover > 1 then 0.5 else p.prob_crossover
  let log1 : List (LogLevel × String) :=
    if p.prob_crossover < 0 ∨ p.prob_crossover > 1 then
      [(LogLevel.debug,
        "prob_crossover should be from interval [0,1]; set to default value 0.5")]
    else []
  let log2 : List (LogLevel × String) :=
    if p.pop_size < 5 then
      [(LogLevel.warning, "Set pop_size >= 5 for difEvoKenPrice to work. ")]
    else []
  { state :=
      { dim := p.dim
        pop_size := p.pop_size
        de_step_size := p.de_step_size
        prob_crossover := pc
        itermax := p.itermax
        x_conv_crit := p.x_conv_crit
        y_conv_crit := p.y_conv_crit
        de_strategy := p.de_strategy
        lower_bds := p.lower_bds
        upper_bds := p.upper_bds
        cur_iter := -1
        pop_old := List.replicate p.pop_size (List.replicate p.dim 0)
        pop := []
        S_vals := []
        S_bestval := 0
        S_bestvalit := 0
        best := List.replicate p.dim 0
        best_iter := List.replicate p.dim 0
        I_best_index := 0
        n_fun_evals := 0 }
    log := log1 ++ log2
    rng := ⟨1000, 0⟩ }

/-- Componentwise `lb + r * (ub - lb)`: the affine rescaling inside
`drawPopulationMember`. -/
def affineDraw : List Rat → List Rat → List Rat → List Rat
  | lb :: lbs, ub :: ubs, r :: rs => (lb + r * (ub - lb)) :: affineDraw lbs ubs rs
  | _, _, _ => []

/-- Model of `DifferentialEvolution.drawPopulationMember`:
`lower_bds + random_sample(dim) * (upper_bds - lower_bds)`. -/
def drawPopulationMember (s : DEState) (M : NpModel) (g : NpRandom) :
    List Rat × NpRandom :=
  let r := sampleVec M g s.dim
  (affineDraw s.lower_bds s.upper_bds r.1, r.2)

/-- The row-drawing loop of `DifferentialEvolution.drawPopulation`
(`for k in range(size): pop[k,:] = drawPopulationMember(dim)`). -/
def drawRows (s : DEState) (M : NpModel) : Nat → NpRandom → List (List Rat) × NpRandom
  | 0, g => ([], g)
  | n + 1, g =>
    let row := drawPopulationMember s M g
    let rest := drawRows s M n row.2
    (row.1 :: rest.1, rest.2)

/-- Model of `DifferentialEvolution.drawPopulation(self.pop_size, self.dim)`. -/
def drawPopulation (s : DEState) (M : NpModel) (g : NpRandom) :
    List (List Rat) × NpRandom :=
  drawRows s M s.pop_size g

/-- The feasibility test used throughout the optimizer:
`sum(constr > 0) == len(constr)` where `constr = self.nlc(ele)`. -/
def feasible (nlc : List Rat → List Rat) (ele : List Rat) : Bool :=
  decide (((nlc ele).countP fun c => decide (0 < c)) = (nlc ele).length)

/-- The per-member `while` loop of `enforceConstrResample`:
`while not sum(constr > 0) == len(constr) and ctr < maxDrawSize`, redrawing
the member and re-checking it (the numpy row view `ele` reflects the
in-place assignment `pop[ixEle, :] = ...`).  `remaining` is
`maxDrawSize - ctr`; the returned `Nat` is the final `ctr`. -/
def resampleLoop (s : DEState) (M : NpModel) (nlc : List Rat → List Rat) :
    Nat → Nat → NpRandom → List Rat → (List Rat × Nat × NpRandom)
  | 0, ctr, g, ele => (ele, ctr, g)
  | remaining + 1, ctr, g, ele =>
    if feasible nlc ele then (ele, ctr, g)
    else
      resampleLoop s M nlc remaining (ctr + 1)
        (drawPopulationMember s M g).2 (drawPopulationMember s M g).1

/-- Model of `DifferentialEvolution.enforceConstrResample`: run the resampling loop
on each member in order, with `maxDrawSize = pop_size * 100`. -/
def enforceConstrResample (s : DEState) (M : NpModel) (nlc : List Rat → List Rat) :
    NpRandom → List (List Rat) → (List (List Rat) × NpRandom)
  | g, [] => ([], g)
  | g, ele :: rest =>
    ((resampleLoop s M nlc (s.pop_size * 100) 0 g ele).1
        :: (enforceConstrResample s M nlc
              (resampleLoop s M nlc (s.pop_size * 100) 0 g ele).2.2 rest).1,
     (enforceConstrResample s M nlc
        (resampleLoop s M nlc (s.pop_size * 100) 0 g ele).2.2 rest).2)

/-- Accumulator pass of `np.argmin`: carries (index, value) of the current
minimum, preferring earlier indices on ties. -/
def argminAux : List Rat → Nat → (Nat × Rat) → (Nat × Rat)
  | [], _, best => best
  | x :: xs, i, best =>
    argminAux xs (i + 1) (if x < best.2 then (i, x) else best)

/-- Model of `np.argmin`: index of the first minimal element (0 on the empty list,
where numpy would raise). -/
def npArgmin : List Rat → Nat
  | [] => 0
  | x :: xs => (argminAux xs 1 (0, x)).1

/-- Body of the survivor-selection loop in `updatePopulation`
(`if newVals[k] < S_vals[k]: pop[k,:] = newPop[k,:]; S_vals[k] = newVals[k]`). -/
def selectStep (newPop : List (List Rat)) (newVals : List Rat)
    (pv : List (List Rat) × List Rat) (k : Nat) : List (List Rat) × List Rat :=
  if newVals.getD k 0 < pv.2.getD k 0 then
    (pv.1.set k (newPop.getD k []), pv.2.set k (newVals.getD k 0))
  else pv

/-- The survivor-selection loop `for k in range(pop_size)` of
`updatePopulation`. -/
def selectLoop (newPop : List (List Rat)) (newVals : List Rat) (n : Nat)
    (pv : List (List Rat) × List Rat) : List (List Rat) × List Rat :=
  (List.range n).foldl (selectStep newPop newVals) pv

/-- First phase of the `cur_iter > 0` branch of `updatePopulation`:
`best_index = argmin(newVals); if newVals[best_index] < S_bestval:`
update `S_bestval` and `best`. -/
def updateBest (s : DEState) (newPop : List (List Rat)) (newVals : List Rat) :
    DEState :=
  if newVals.getD (npArgmin newVals) 0 < s.S_bestval then
    { s with
      S_bestval := newVals.getD (npArgmin newVals) 0
      best := newPop.getD (npArgmin newVals) [] }
  else s

/-- Second phase of the `cur_iter > 0` branch of `updatePopulation`: run
the survivor-selection loop in place, add `pop_size` function evaluations
(the source increments once per loop pass), and freeze `best_iter`. -/
def updateSelect (s1 : DEState) (newPop : List (List Rat)) (newVals : List Rat)
    (pop_size : Nat) : DEState :=
  { s1 with
    pop := (selectLoop newPop newVals pop_size (s1.pop, s1.S_vals)).1
    S_vals := (selectLoop newPop newVals pop_size (s1.pop, s1.S_vals)).2
    n_fun_evals := s1.n_fun_evals + pop_size
    best_iter := s1.best }

/-- Model of `DifferentialEvolution.updatePopulation`. -/
def updatePopulation (s : DEState) (newPop : List (List Rat)) (newVals : List Rat) :
    DEState :=
  if s.cur_iter = 0 then
    { s with
      pop := newPop
      S_vals := newVals
      I_best_index := npArgmin newVals
      S_bestval := newVals.getD (npArgmin newVals) 0
      best_iter := newPop.getD (npArgmin newVals) []
      S_bestvalit := newVals.getD (npArgmin newVals) 0
      best := newPop.getD (npArgmin newVals) [] }
  else if s.cur_iter > 0 then
    updateSelect (updateBest s newPop newVals) newPop newVals s.pop_size
  else
    s

/-- Model of `DifferentialEvolution.populationConverged`:
`(np.abs(pop - pop[0]) <= x_conv_crit).all()`. -/
def populationConverged (s : DEState) (pop : List (List Rat)) : Bool :=
  pop.all fun row =>
    (List.zipWith (fun a b => |a - b|) row (pop.headD [])).all fun d =>
      decide (d ≤ s.x_conv_crit)

/-- Model of `DifferentialEvolution.has_converged`: sequential checks setting
`converged = True`. -/
def has_converged (s : DEState) : Bool :=
  let converged := false
  let converged := if s.cur_iter > s.itermax then true else converged
  let converged := if s.S_bestval < s.y_conv_crit then true else converged
  let converged := if populationConverged s s.pop then true else converged
  converged

/-- Modelled from the spec (refinement comparison only): convergence iff
(a) the iteration count exceeds `itermax`, or (b) the global best value is
below `y_conv_crit`, or (c) every population member lies within
`x_conv_crit` of member 0 in every dimension. -/
def specConverged (s : DEState) : Prop :=
  s.cur_iter > s.itermax ∨ s.S_bestval < s.y_conv_crit ∨
    ∀ row ∈ s.pop, ∀ j < s.dim,
      |row.getD j 0 - (s.pop.headD []).getD j 0| ≤ s.x_conv_crit

/-- The "+1" workaround in `modify`: `ind = np.random.permutation(4) + 1`
("Need to add +1 in definition of ind otherwise there is one zero index
that ... creates no shuffling"). -/
def mkInd (p : List Nat) : List Nat := p.map (fun x => x + 1)

/-- Index rotation `rt = (rot + o) % pop_size` followed by fancy indexing `a[rt]`:
position `i` of the result is `a[(i + o) % pop_size]`. -/
def rotateIdx (a : List Nat) (o : Nat) (pop_size : Nat) : List Nat :=
  (List.range pop_size).map (fun i => a.getD ((i + o) % pop_size) 0)

/-- numpy fancy indexing `pop[idx, :]`. -/
def gatherRows (pop : List (List Rat)) (idx : List Nat) : List (List Rat) :=
  idx.map (fun i => pop.getD i [])

/-- Elementwise binary operation on matrices. -/
def matZip (f : Rat → Rat → Rat) (A B : List (List Rat)) : List (List Rat) :=
  List.zipWith (List.zipWith f) A B

/-- Elementwise matrix sum. -/
def matAdd : List (List Rat) → List (List Rat) → List (List Rat) :=
  matZip (· + ·)

/-- Elementwise matrix difference. -/
def matSub : List (List Rat) → List (List Rat) → List (List Rat) :=
  matZip (· - ·)

/-- Elementwise (Hadamard) matrix product. -/
def matMulE : List (List Rat) → List (List Rat) → List (List Rat) :=
  matZip (· * ·)

/-- Scalar times matrix. -/
def matScale (c : Rat) (A : List (List Rat)) : List (List Rat) :=
  A.map (List.map (fun x => c * x))

/-- numpy boolean-as-float coercion (True = 1.0, False = 0.0). -/
def maskToRat (b : Bool) : Rat := if b then 1 else 0

/-- Elementwise comparison of a float matrix against a scalar, as in
`mui = random_sample((pop_size, dim)) < prob_crossover`. -/
def maskLt (A : List (List Rat)) (c : Rat) : List (List Bool) :=
  A.map (List.map (fun x => decide (x < c)))

/-- Elementwise product of a matrix with a boolean mask. -/
def maskMul (A : List (List Rat)) (m : List (List Bool)) : List (List Rat) :=
  List.zipWith (List.zipWith (fun x b => x * maskToRat b)) A m

/-- The binomial crossover `ui = popold * mpo + ui * mui`. -/
def crossover (popold ui : List (List Rat)) (mui mpo : List (List Bool)) :
    List (List Rat) :=
  matAdd (maskMul popold mpo) (maskMul ui mui)

/-- Model of `DifferentialEvolution.modify`: build the shuffled populations
`pm1..pm5` from four nonzero rotations of a random permutation, draw the
crossover mask, and combine according to `de_strategy` (1-5, with any
other value running the either-or rule).  `FM_origin` and the
`np.any(ui > 1.3)` print of strategy 1 have no effect on the returned
offspring and are omitted. -/
def modify (s : DEState) (M : NpModel) (g : NpRandom) (pop : List (List Rat)) :
    List (List Rat) × NpRandom :=
  let popold := pop
  let F := s.de_step_size
  let (perm4, g1) := samplePerm M g 4
  let ind := mkInd perm4
  let (a1, g2) := samplePerm M g1 s.pop_size
  let a2 := rotateIdx a1 (ind.getD 0 0) s.pop_size
  let a3 := rotateIdx a2 (ind.getD 1 0) s.pop_size
  let a4 := rotateIdx a3 (ind.getD 2 0) s.pop_size
  let a5 := rotateIdx a4 (ind.getD 3 0) s.pop_size
  let pm1 := gatherRows popold a1
  let pm2 := gatherRows popold a2
  let pm3 := gatherRows popold a3
  let _pm4 := gatherRows popold a4
  let pm5 := gatherRows popold a5
  let bm := List.replicate s.pop_size s.best_iter
  let (randMat, g3) := sampleMat M g2 s.pop_size s.dim
  let mui := maskLt randMat s.prob_crossover
  let mpo := mui.map (List.map (fun b => decide (maskToRat b < 0.5)))
  if s.de_strategy = 1 then
    (crossover popold (matAdd pm3 (matScale F (matSub pm1 pm2))) mui mpo, g3)
  else if s.de_strategy = 2 then
    (crossover popold
      (matAdd (matAdd popold (matScale F (matSub bm popold)))
        (matScale F (matSub pm1 pm2))) mui mpo, g3)
  else if s.de_strategy = 3 then
    let (jit, g4) := sampleMat M g3 s.pop_size s.dim
    let factor := jit.map (List.map (fun x => (1 - 0.9999) * x + F))
    (crossover popold (matAdd bm (matMulE (matSub pm1 pm2) factor)) mui mpo, g4)
  else if s.de_strategy = 4 then
    let (fs, g4) := sampleVec M g3 s.pop_size
    let f1 := fs.map (fun r => (1 - F) * r + F)
    let pm5b := f1.map (fun v => List.replicate s.dim v)
    let _pm5 := pm5
    (crossover popold (matAdd pm3 (matMulE (matSub pm1 pm2) pm5b)) mui mpo, g4)
  else if s.de_strategy = 5 then
    let (r, g4) := sampleOne M g3
    let f1 := (1 - F) * r + F
    (crossover popold (matAdd pm3 (matScale f1 (matSub pm1 pm2))) mui mpo, g4)
  else
    let (coin, g4) := sampleOne M g3
    if coin < 0.5 then
      (matAdd pm3 (matScale F (matSub pm1 pm2)), g4)
    else
      (crossover popold
        (matAdd pm3
          (matScale (0.5 * (F + 1))
            (matSub (matAdd pm1 pm2) (matScale 2 pm3)))) mui mpo, g4)

/-- Model of `DifferentialEvolution.checkConstraints`: one feasibility Boolean per
member. -/
def checkConstraints (nlc : List Rat → List Rat) (pop : List (List Rat)) :
    List Bool :=
  pop.map (fun ele => feasible nlc ele)

/-- numpy boolean-mask row selection `pop[cSat, :]`. -/
def boolSelect (pop : List (List Rat)) (cSat : List Bool) : List (List Rat) :=
  (pop.zip cSat).filterMap (fun p => if p.2 then some p.1 else none)

/-- The `while not len(popNew) >= pop_size` loop of
`enforceConstrReEvolve`: repeatedly evolve a fresh batch from the current
population `s.pop` and append its feasible subset.  The source imposes no
bound, so the loop carries fuel; `none` models non-termination within the
allotted fuel. -/
def reEvolveLoop (s : DEState) (M : NpModel) (nlc : List Rat → List Rat) :
    Nat → NpRandom → List (List Rat) → Option (List (List Rat) × NpRandom)
  | 0, _, _ => none
  | fuel + 1, g, popNew =>
    if popNew.length ≥ s.pop_size then some (popNew, g)
    else
      let r := modify s M g s.pop
      reEvolveLoop s M nlc fuel r.2
        (popNew ++ boolSelect r.1 (checkConstraints nlc r.1))

/-- Model of `DifferentialEvolution.enforceConstrReEvolve`: keep the feasible
subset of the offspring, top it up with feasible members of freshly
evolved batches, and truncate to `pop_size`. -/
def enforceConstrReEvolve (s : DEState) (M : NpModel) (nlc : List Rat → List Rat)
    (fuel : Nat) (g : NpRandom) (pop : List (List Rat)) :
    Option (List (List Rat) × NpRandom) :=
  match reEvolveLoop s M nlc fuel g (boolSelect pop (checkConstraints nlc pop)) with
  | none => none
  | some pn => some (pn.1.take s.pop_size, pn.2)

/-- Model of `DifferentialEvolution.iterate`: advance `cur_iter`; on iteration 0
draw and resample the initial population, on later iterations evolve and
re-evolve the offspring `ui`; evaluate the target on `ui`, run
`updatePopulation`, and report `has_converged`.  (A start value of
`cur_iter < -1` would make the Python code read the never-assigned
attribute `self.ui`; that unreachable branch is `none`.) -/
def iterate (M : NpModel) (nlc : List Rat → List Rat)
    (target : List (List Rat) → List Rat) (fuel : Nat)
    (sg : DEState × NpRandom) : Option (DEState × NpRandom × Bool) :=
  let s0 := sg.1
  let g := sg.2
  let s := { s0 with cur_iter := s0.cur_iter + 1 }
  let step : Option (DEState × List (List Rat) × NpRandom) :=
    if s.cur_iter = 0 then
      let (p0, g1) := drawPopulation s M g
      let (pop0, g2) := enforceConstrResample s M nlc g1 p0
      some ({ s with pop := pop0 }, pop0, g2)
    else if s.cur_iter > 0 then
      let (ui0, g1) := modify s M g s.pop
      match enforceConstrReEvolve s M nlc fuel g1 ui0 with
      | none => none
      | some (ui1, g2) => some (s, ui1, g2)
    else none
  match step with
  | none => none
  | some (s1, ui, g1) =>
    let vals := target ui
    let s2 := updatePopulation s1 ui vals
    some (s2, g1, has_converged s2)

/-- Run `n` successive calls of `iterate`, stopping at the first failure. -/
def iterateN (M : NpModel) (nlc : List Rat → List Rat)
    (target : List (List Rat) → List Rat) (fuel : Nat) :
    Nat → Option (DEState × NpRandom) → Option (DEState × NpRandom)
  | 0, o => o
  | n + 1, o =>
    match o with
    | none => none
    | some sg =>
      match iterate M nlc target fuel sg with
      | none => none
      | some (s, g, _) => iterateN M nlc target fuel n (some (s, g))

/-- A full driven run: construct the optimizer (which reseeds the global
generator with the fixed seed 1000) from ambient generator state
`ambient`, then perform `n` iterations against the pure target function
`target` and constraint function `nlc`. -/
def deRun (M : NpModel) (nlc : List Rat → List Rat)
    (target : List (List Rat) → List Rat) (fuel : Nat)
    (ambient : NpRandom) (p : DEParams) (n : Nat) :
    Option (DEState × NpRandom) :=
  let ini := deInit ambient p
  iterateN M nlc target fuel n (some (ini.state, ini.rng))

/-- Concrete constructor arguments with `prob_crossover = 1.5` (all other
arguments well-formed, `pop_size ≥ 5`). -/
def pC9ex : DEParams :=
  { dim := 2
    pop_size := 100
    de_step_size := 0.85
    prob_crossover := 1.5
    itermax := 100
    x_conv_crit := 1/1000
    y_conv_crit := 1/100000
    de_strategy := 2
    lower_bds := [-2, -2]
    upper_bds := [2, 2] }

/-- A sequence of `updatePopulation` calls (offspring, values) applied in
order. -/
def runUpdates (s : DEState) (steps : List (List (List Rat) × List Rat)) : DEState :=
  steps.foldl (fun t st => updatePopulation t st.1 st.2) s

/-- A concrete one-member, one-dimensional optimizer state (bounds `[0,1]`,
one past-iteration member `[0]` of value 5). -/
def sBase : DEState :=
  { dim := 1
    pop_size := 1
    de_step_size := 0.85
    prob_crossover := 0.5
    itermax := 100
    x_conv_crit := 1/1000
    y_conv_crit := 1/100000
    de_strategy := 2
    lower_bds := [0]
    upper_bds := [1]
    cur_iter := 1
    pop_old := [[0]]
    pop := [[0]]
    S_vals := [5]
    S_bestval := 5
    S_bestvalit := 5
    best := [0]
    best_iter := [0]
    I_best_index := 0
    n_fun_evals := 0 }

/-- State `sBase` at iteration 0 (first `updatePopulation` call). -/
def sBase0 : DEState := { sBase with cur_iter := 0 }

/-- A two-member variant of `sBase`. -/
def sBase2 : DEState :=
  { sBase with
    pop_size := 2
    pop_old := [[0], [0]]
    pop := [[0], [1]]
    S_vals := [5, 6] }

/-- A generator model producing the constant draw 1/2 and identity
permutations. -/
def mHalf : NpModel :=
  { sample := fun _ _ => 1/2
    perm := fun _ _ n => List.range n }

/-- A constraint function that every point violates
(`nlc(x) = [-1]`, and `sum([-1] > 0) != 1`). -/
def nlcAlwaysFail : List Rat → List Rat := fun _ => [-1]

/-- A constraint function that every point satisfies (`nlc(x) = [1]`). -/
def nlcAlwaysOk : List Rat → List Rat := fun _ => [1]

end GC3

namespace GC3

/-- Claim C7: the exit code of one session loop is the bitwise OR of 2 when
any task failed, 4 when any task is RUNNING or SUBMITTED, and 8 when any
task is NEW; and it is 0 when none of these hold. -/
theorem claim_C7 (stats : SessionStats) :
    sessionExitCode stats =
      (if stats.failed > 0 then 2 else 0) |||
      (if stats.running > 0 ∨ stats.submitted > 0 then 4 else 0) |||
      (if stats.newTasks > 0 then 8 else 0)
    ∧ (stats.failed = 0 → stats.running = 0 → stats.submitted = 0 →
        stats.newTasks = 0 → sessionExitCode stats = 0) := by
  constructor
  · unfold sessionExitCode
    rcases Nat.eq_zero_or_pos stats.failed with hf | hf <;>
    rcases Nat.eq_zero_or_pos stats.running with hr | hr <;>
    rcases Nat.eq_zero_or_pos stats.submitted with hs | hs <;>
    rcases Nat.eq_zero_or_pos stats.newTasks with hn | hn <;>
      simp_all
  · intro hf hr hs hn
    unfold sessionExitCode
    simp [hf, hr, hs, hn]

/-- Witness for C7 at the all-zero stats record. -/
theorem claim_C7_witness :
    sessionExitCode ⟨0, 0, 0, 0⟩ = 0 :=
  (claim_C7 ⟨0, 0, 0, 0⟩).2 rfl rfl rfl rfl

/-- Claim C8: the backend status parsers translate each native batch-queue
status string through the backend that produces it: the LSF `bjobs` codes
PEND → SUBMITTED, RUN → RUNNING, DONE/EXIT → TERMINATING; the PBS/Torque
`qstat` codes Q/W → SUBMITTED, R → RUNNING, C/E → TERMINATING,
S/H/T/qh → STOPPED; and every unrecognized string maps to UNKNOWN (the
translation functions are total, so no exception is raised). -/
theorem claim_C8 :
    lsfParseStat ("PEND") = RunState.SUBMITTED
    ∧ lsfParseStat ("RUN") = RunState.RUNNING
    ∧ lsfParseStat ("DONE") = RunState.TERMINATING
    ∧ lsfParseStat ("EXIT") = RunState.TERMINATING
    ∧ pbsParseStat ("Q") = RunState.SUBMITTED
    ∧ pbsParseStat ("W") = RunState.SUBMITTED
    ∧ pbsParseStat ("R") = RunState.RUNNING
    ∧ pbsParseStat ("C") = RunState.TERMINATING
    ∧ pbsParseStat ("E") = RunState.TERMINATING
    ∧ pbsParseStat ("S") = RunState.STOPPED
    ∧ pbsParseStat ("H") = RunState.STOPPED
    ∧ pbsParseStat ("T") = RunState.STOPPED
    ∧ pbsParseStat ("qh") = RunState.STOPPED
    ∧ (∀ st : String, st ∉ (["PEND", "RUN", "DONE", "EXIT"] : List String) →
        lsfParseStat st = RunState.UNKNOWN)
    ∧ (∀ st : String,
        st ∉ (["Q", "W", "R", "S", "H", "T", "C", "E"] : List String) →
        containsSubstr st ("qh") = false →
        pbsParseStat st = RunState.UNKNOWN) := by
  refine ⟨by decide, by decide, by decide, by decide, by decide, by decide,
    by decide, by decide, by decide, by decide, by decide, by decide,
    by decide, ?_, ?_⟩
  · intro st hst
    simp only [List.mem_cons, List.not_mem_nil, or_false, not_or] at hst
    obtain ⟨h1, h2, h3, h4⟩ := hst
    simp [lsfParseStat, h1, h2, h3, h4]
  · intro st hst hqh
    simp only [List.mem_cons, List.not_mem_nil, or_false, not_or] at hst
    obtain ⟨h1, h2, h3, h4, h5, h6, h7, h8⟩ := hst
    simp [pbsParseStat, h1, h2, h3, h4, h5, h6, h7, h8, hqh]

/-- Witness for C8 at the unrecognized status string "FOO". -/
theorem claim_C8_witness :
    lsfParseStat ("FOO") = RunState.UNKNOWN
    ∧ pbsParseStat ("FOO") = RunState.UNKNOWN :=
  ⟨claim_C8.2.2.2.2.2.2.2.2.2.2.2.2.2.1 ("FOO") (by decide),
   claim_C8.2.2.2.2.2.2.2.2.2.2.2.2.2.2 ("FOO") (by decide) (by decide)⟩

/-- Counterexample to claim C9 as stated: constructing with
`prob_crossover = 1.5` does clamp the value to 0.5, but the clamp message
is emitted via `logger.debug`, so the constructor log contains no
WARNING-level record at all (the log is nonempty — it holds exactly the
DEBUG clamp message). -/
theorem claim_C9_counterexample :
    (deInit ⟨0, 0⟩ pC9ex).state.prob_crossover = 0.5
    ∧ ((deInit ⟨0, 0⟩ pC9ex).log.all (fun e => decide (e.1 ≠ LogLevel.warning))) = true
    ∧ (deInit ⟨0, 0⟩ pC9ex).log ≠ [] := by
  have h : pC9ex.prob_crossover < 0 ∨ pC9ex.prob_crossover > 1 :=
    Or.inr (by norm_num [pC9ex])
  have h5 : ¬ (pC9ex.pop_size < 5) := by norm_num [pC9ex]
  refine ⟨?_, ?_, ?_⟩ <;> simp [deInit, if_pos h, if_neg h5]

/-- Claim C9 (amended): constructing the optimizer with `prob_crossover`
outside `[0,1]` raises no exception and leaves the instance with
`prob_crossover == 0.5` plus a clamp message logged at DEBUG level (not a
warning); every other constructor argument is stored unchanged by this
clamping. -/
theorem claim_C9 (amb : NpRandom) (p : DEParams)
    (h : p.prob_crossover < 0 ∨ p.prob_crossover > 1) :
    (deInit amb p).state.prob_crossover = 0.5
    ∧ (LogLevel.debug,
        "prob_crossover should be from interval [0,1]; set to default value 0.5")
        ∈ (deInit amb p).log
    ∧ (deInit amb p).state.dim = p.dim
    ∧ (deInit amb p).state.pop_size = p.pop_size
    ∧ (deInit amb p).state.de_step_size = p.de_step_size
    ∧ (deInit amb p).state.itermax = p.itermax
    ∧ (deInit amb p).state.x_conv_crit = p.x_conv_crit
    ∧ (deInit amb p).state.y_conv_crit = p.y_conv_crit
    ∧ (deInit amb p).state.de_strategy = p.de_strategy
    ∧ (deInit amb p).state.lower_bds = p.lower_bds
    ∧ (deInit amb p).state.upper_bds = p.upper_bds := by
  refine ⟨?_, ?_, rfl, rfl, rfl, rfl, rfl, rfl, rfl, rfl, rfl⟩
  · simp only [deInit, if_pos h]
  · simp [deInit, if_pos h]

/-- Witness for C9 at `prob_crossover = 1.5`. -/
theorem claim_C9_witness :
    (deInit ⟨0, 0⟩ pC9ex).state.prob_crossover = 0.5 :=
  (claim_C9 ⟨0, 0⟩ pC9ex (Or.inr (by norm_num [pC9ex]))).1

/-! Survivor selection (claims C1, C2) -/

theorem getD_set_ne {α : Type} (l : List α) (i j : Nat) (a d : α) (h : i ≠ j) :
    (l.set i a).getD j d = l.getD j d := by
  simp [List.getD_eq_getElem?_getD, List.getElem?_set_ne h]

theorem selectLoop_succ (newPop : List (List Rat)) (newVals : List Rat) (n : Nat)
    (pv : List (List Rat) × List Rat) :
    selectLoop newPop newVals (n + 1) pv
      = selectStep newPop newVals (selectLoop newPop newVals n pv) n := by
  unfold selectLoop
  rw [List.range_succ, List.foldl_append]
  rfl

theorem selectLoop_length (newPop : List (List Rat)) (newVals : List Rat) :
    ∀ (n : Nat) (pv : List (List Rat) × List Rat),
      (selectLoop newPop newVals n pv).1.length = pv.1.length
      ∧ (selectLoop newPop newVals n pv).2.length = pv.2.length := by
  intro n
  induction n with
  | zero => intro pv; exact ⟨rfl, rfl⟩
  | succ n ih =>
    intro pv
    rw [selectLoop_succ]
    rcases ih pv with ⟨h1, h2⟩
    unfold selectStep
    split
    · simp [List.length_set, h1, h2]
    · exact ⟨h1, h2⟩

theorem selectLoop_getD_of_le (newPop : List (List Rat)) (newVals : List Rat) :
    ∀ (n : Nat) (pv : List (List Rat) × List Rat) (k : Nat), n ≤ k →
      (selectLoop newPop newVals n pv).1.getD k [] = pv.1.getD k []
      ∧ (selectLoop newPop newVals n pv).2.getD k 0 = pv.2.getD k 0 := by
  intro n
  induction n with
  | zero => intro pv k _; exact ⟨rfl, rfl⟩
  | succ n ih =>
    intro pv k hk
    rw [selectLoop_succ]
    rcases ih pv k (by omega) with ⟨h1, h2⟩
    have hne : n ≠ k := by omega
    unfold selectStep
    split
    · exact ⟨(getD_set_ne _ n k _ _ hne).trans h1, (getD_set_ne _ n k _ _ hne).trans h2⟩
    · exact ⟨h1, h2⟩

theorem selectLoop_getD (newPop : List (List Rat)) (newVals : List Rat) :
    ∀ (n : Nat) (pv : List (List Rat) × List Rat) (k : Nat), k < n →
      k < pv.1.length → k < pv.2.length →
      (selectLoop newPop newVals n pv).1.getD k []
        = (if newVals.getD k 0 < pv.2.getD k 0 then newPop.getD k [] else pv.1.getD k [])
      ∧ (selectLoop newPop newVals n pv).2.getD k 0
        = (if newVals.getD k 0 < pv.2.getD k 0 then newVals.getD k 0 else pv.2.getD k 0) := by
  intro n
  induction n with
  | zero => intro pv k hk; omega
  | succ n ih =>
    intro pv k hk hk1 hk2
    rw [selectLoop_succ]
    by_cases hkn : k < n
    · -- the final pass at index n leaves index k untouched
      rcases ih pv k hkn hk1 hk2 with ⟨h1, h2⟩
      have hne : n ≠ k := by omega
      unfold selectStep
      split
      · exact ⟨(getD_set_ne _ n k _ _ hne).trans h1, (getD_set_ne _ n k _ _ hne).trans h2⟩
      · exact ⟨h1, h2⟩
    · -- k = n: the first n passes leave index k untouched, the final pass decides it
      have hkn' : k = n := by omega
      subst hkn'
      rcases selectLoop_getD_of_le newPop newVals k pv k (by omega) with ⟨h1, h2⟩
      rcases selectLoop_length newPop newVals k pv with ⟨hl1, hl2⟩
      unfold selectStep
      rw [h2]
      split
      · constructor
        · have hlen : k < ((selectLoop newPop newVals k pv).1.set k (newPop.getD k [])).length := by
            rw [List.length_set, hl1]; exact hk1
          rw [List.getD_eq_getElem _ _ hlen, List.getElem_set]
          simp
        · have hlen : k < ((selectLoop newPop newVals k pv).2.set k (newVals.getD k 0)).length := by
            rw [List.length_set, hl2]; exact hk2
          rw [List.getD_eq_getElem _ _ hlen, List.getElem_set]
          simp
      · exact ⟨h1, h2⟩

/-- In the `cur_iter > 0` branch, `updatePopulation` leaves `cur_iter`,
`pop_size` untouched, runs the survivor-selection loop on
`(pop, S_vals)`, and lowers `S_bestval` to the best offspring value when
that improves on it. -/
theorem updatePopulation_pos (s : DEState) (newPop : List (List Rat))
    (newVals : List Rat) (h : s.cur_iter > 0) :
    (updatePopulation s newPop newVals).pop
        = (selectLoop newPop newVals s.pop_size (s.pop, s.S_vals)).1
    ∧ (updatePopulation s newPop newVals).S_vals
        = (selectLoop newPop newVals s.pop_size (s.pop, s.S_vals)).2
    ∧ (updatePopulation s newPop newVals).S_bestval
        = (if newVals.getD (npArgmin newVals) 0 < s.S_bestval
           then newVals.getD (npArgmin newVals) 0 else s.S_bestval)
    ∧ (updatePopulation s newPop newVals).cur_iter = s.cur_iter
    ∧ (updatePopulation s newPop newVals).pop_size = s.pop_size := by
  have h0 : ¬ (s.cur_iter = 0) := by omega
  have hb : (updateBest s newPop newVals).pop = s.pop
      ∧ (updateBest s newPop newVals).S_vals = s.S_vals
      ∧ (updateBest s newPop newVals).cur_iter = s.cur_iter
      ∧ (updateBest s newPop newVals).pop_size = s.pop_size
      ∧ (updateBest s newPop newVals).S_bestval
          = (if newVals.getD (npArgmin newVals) 0 < s.S_bestval
             then newVals.getD (npArgmin newVals) 0 else s.S_bestval)
      ∧ (updateBest s newPop newVals).n_fun_evals = s.n_fun_evals := by
    unfold updateBest
    split
    · exact ⟨rfl, rfl, rfl, rfl, rfl, rfl⟩
    · exact ⟨rfl, rfl, rfl, rfl, rfl, rfl⟩
  obtain ⟨hp, hv, hci, hps, hbv, _⟩ := hb
  unfold updatePopulation
  rw [if_neg h0, if_pos h]
  unfold updateSelect
  exact ⟨by rw [hp, hv], by rw [hp, hv], hbv, hci, hps⟩

/-- Lemma: `updatePopulation` never changes `cur_iter`. -/
theorem updatePopulation_cur_iter (s : DEState) (newPop : List (List Rat))
    (newVals : List Rat) :
    (updatePopulation s newPop newVals).cur_iter = s.cur_iter := by
  unfold updatePopulation
  split
  · rfl
  · split
    · show (updateBest s newPop newVals).cur_iter = s.cur_iter
      unfold updateBest
      split <;> rfl
    · rfl

/-- Claim C1: in every iteration after the first (`cur_iter > 0`), for
every index `k < pop_size`, `updatePopulation` replaces the population
member at `k` by the offspring at `k` exactly when the offspring value is
strictly lower than the stored value, and keeps the parent otherwise; the
stored value array is updated at exactly the same indices. -/
theorem claim_C1 (s : DEState) (newPop : List (List Rat)) (newVals : List Rat)
    (hiter : s.cur_iter > 0)
    (hpop : s.pop.length = s.pop_size) (hvals : s.S_vals.length = s.pop_size)
    (k : Nat) (hk : k < s.pop_size) :
    (updatePopulation s newPop newVals).pop.getD k []
      = (if newVals.getD k 0 < s.S_vals.getD k 0
         then newPop.getD k [] else s.pop.getD k [])
    ∧ (updatePopulation s newPop newVals).S_vals.getD k 0
      = (if newVals.getD k 0 < s.S_vals.getD k 0
         then newVals.getD k 0 else s.S_vals.getD k 0) := by
  rcases updatePopulation_pos s newPop newVals hiter with ⟨h1, h2, _, _, _⟩
  rw [h1, h2]
  exact selectLoop_getD newPop newVals s.pop_size (s.pop, s.S_vals) k hk
    (by simpa [hpop]) (by simpa [hvals])

/-- Witness for C1: at `sBase` (one parent `[0]` of value 5), offspring
`[7]` of value 3 replaces the parent and its value is stored. -/
theorem claim_C1_witness :
    (updatePopulation sBase [[7]] [3]).pop.getD 0 [] = [7]
    ∧ (updatePopulation sBase [[7]] [3]).S_vals.getD 0 0 = 3 := by
  have h := claim_C1 sBase [[7]] [3] (by norm_num [sBase]) (by norm_num [sBase])
    (by norm_num [sBase]) 0 (by norm_num [sBase])
  rcases h with ⟨h1, h2⟩
  refine ⟨h1.trans ?_, h2.trans ?_⟩ <;> norm_num [sBase]

theorem argminAux_le : ∀ (xs : List Rat) (i : Nat) (best : Nat × Rat),
    (argminAux xs i best).2 ≤ best.2 ∧ ∀ x ∈ xs, (argminAux xs i best).2 ≤ x := by
  intro xs
  induction xs with
  | nil => intro i best; exact ⟨le_refl _, by simp⟩
  | cons x xs ih =>
    intro i best
    unfold argminAux
    rcases ih (i + 1) (if x < best.2 then (i, x) else best) with ⟨hle, hall⟩
    have hb2 : (if x < best.2 then (i, x) else best).2 ≤ best.2 := by
      split
      · exact le_of_lt (by assumption)
      · exact le_refl _
    have hbx : (if x < best.2 then (i, x) else best).2 ≤ x := by
      split
      · exact le_refl _
      · exact le_of_not_lt (by assumption)
    refine ⟨le_trans hle hb2, ?_⟩
    intro y hy
    rcases List.mem_cons.mp hy with rfl | hy2
    · exact le_trans hle hbx
    · exact hall y hy2

theorem argminAux_getD : ∀ (xs : List Rat) (i : Nat) (best : Nat × Rat) (l : List Rat),
    l.getD best.1 0 = best.2 →
    (∀ j, j < xs.length → l.getD (i + j) 0 = xs.getD j 0) →
    l.getD (argminAux xs i best).1 0 = (argminAux xs i best).2 := by
  intro xs
  induction xs with
  | nil => intro i best l h1 _; exact h1
  | cons x xs ih =>
    intro i best l h1 h2
    unfold argminAux
    apply ih
    · split
      · have h0 := h2 0 (by simp)
        simpa using h0
      · exact h1
    · intro j hj
      have hs := h2 (j + 1) (by simpa using Nat.succ_lt_succ hj)
      have harr : i + 1 + j = i + (j + 1) := by omega
      rw [harr]
      simpa [List.getD_cons_succ] using hs

/-- Lemma: `np.argmin` points at a minimal element: the value it indexes is a
lower bound of the whole (nonempty) list. -/
theorem npArgmin_getD_le (l : List Rat) (hne : l ≠ []) :
    ∀ v ∈ l, l.getD (npArgmin l) 0 ≤ v := by
  cases l with
  | nil => exact absurd rfl hne
  | cons x xs =>
    intro v hv
    have hg : (x :: xs).getD (argminAux xs 1 (0, x)).1 0 = (argminAux xs 1 (0, x)).2 := by
      apply argminAux_getD
      · simp
      · intro j hj
        have h1j : 1 + j = j + 1 := by omega
        rw [h1j]
        simp [List.getD_cons_succ]
    rcases argminAux_le xs 1 (0, x) with ⟨hle, hall⟩
    show (x :: xs).getD ((argminAux xs 1 (0, x)).1) 0 ≤ v
    rw [hg]
    rcases List.mem_cons.mp hv with rfl | hv2
    · exact hle
    · exact hall v hv2

/-- In the `cur_iter = 0` branch, `updatePopulation` installs the new
values and the `argmin` bookkeeping. -/
theorem updatePopulation_zero (s : DEState) (newPop : List (List Rat))
    (newVals : List Rat) (h : s.cur_iter = 0) :
    (updatePopulation s newPop newVals).S_vals = newVals
    ∧ (updatePopulation s newPop newVals).S_bestval
        = newVals.getD (npArgmin newVals) 0 := by
  unfold updatePopulation
  rw [if_pos h]
  exact ⟨rfl, rfl⟩

theorem getD_mem_of_lt (l : List Rat) (k : Nat) (hk : k < l.length) :
    l.getD k 0 ∈ l := by
  rw [List.getD_eq_getElem _ _ hk]
  exact List.getElem_mem hk

/-- Claim C2: across `updatePopulation` calls after the initial one the
stored global best value never increases — both for a single call and for
any sequence of calls — and the invariant `S_bestval ≤` every stored
member value is established by the first update (`cur_iter = 0`) and
preserved by every later update. -/
theorem claim_C2 :
    (∀ (s : DEState) (newPop : List (List Rat)) (newVals : List Rat),
        s.cur_iter > 0 →
        (updatePopulation s newPop newVals).S_bestval ≤ s.S_bestval)
    ∧ (∀ (s : DEState) (steps : List (List (List Rat) × List Rat)),
        s.cur_iter > 0 →
        (runUpdates s steps).S_bestval ≤ s.S_bestval)
    ∧ (∀ (s : DEState) (newPop : List (List Rat)) (newVals : List Rat),
        s.cur_iter > 0 →
        s.pop.length = s.pop_size → s.S_vals.length = s.pop_size →
        newVals.length = s.pop_size →
        (∀ v ∈ s.S_vals, s.S_bestval ≤ v) →
        ∀ v ∈ (updatePopulation s newPop newVals).S_vals,
          (updatePopulation s newPop newVals).S_bestval ≤ v)
    ∧ (∀ (s : DEState) (newPop : List (List Rat)) (newVals : List Rat),
        s.cur_iter = 0 → newVals ≠ [] →
        ∀ v ∈ (updatePopulation s newPop newVals).S_vals,
          (updatePopulation s newPop newVals).S_bestval ≤ v) := by
  have mono : ∀ (s : DEState) (newPop : List (List Rat)) (newVals : List Rat),
      s.cur_iter > 0 →
      (updatePopulation s newPop newVals).S_bestval ≤ s.S_bestval := by
    intro s np nv h
    rcases updatePopulation_pos s np nv h with ⟨_, _, hb, _, _⟩
    rw [hb]
    split
    · exact le_of_lt (by assumption)
    · exact le_refl _
  refine ⟨mono, ?_, ?_, ?_⟩
  · intro s steps
    induction steps generalizing s with
    | nil => intro _; exact le_refl _
    | cons st rest ih =>
      intro h
      have h2 : (updatePopulation s st.1 st.2).cur_iter > 0 := by
        rw [updatePopulation_cur_iter]; exact h
      calc (runUpdates s (st :: rest)).S_bestval
          = (runUpdates (updatePopulation s st.1 st.2) rest).S_bestval := rfl
        _ ≤ (updatePopulation s st.1 st.2).S_bestval := ih _ h2
        _ ≤ s.S_bestval := mono s st.1 st.2 h
  · intro s np nv h hplen hlen hnlen hinv v hv
    rcases updatePopulation_pos s np nv h with ⟨_, hvals, hbest, _, _⟩
    rw [hvals] at hv
    rw [hbest]
    obtain ⟨k, hk, hkv⟩ := List.mem_iff_getElem.mp hv
    have hlen2 : (selectLoop np nv s.pop_size (s.pop, s.S_vals)).2.length
        = s.S_vals.length :=
      (selectLoop_length np nv s.pop_size (s.pop, s.S_vals)).2
    have hkp : k < s.pop_size := by rw [hlen2, hlen] at hk; exact hk
    have hkv2 : (selectLoop np nv s.pop_size (s.pop, s.S_vals)).2.getD k 0 = v := by
      rw [List.getD_eq_getElem _ _ hk]; exact hkv
    have hchar := (selectLoop_getD np nv s.pop_size (s.pop, s.S_vals) k hkp
      (by simpa [hplen]) (by simpa [hlen])).2
    rw [← hkv2, hchar]
    have hp0 : 0 < s.pop_size := lt_of_le_of_lt (Nat.zero_le k) hkp
    have hnv_ne : nv ≠ [] := by
      intro he
      rw [he] at hnlen
      simp at hnlen
      omega
    have hargle : nv.getD (npArgmin nv) 0 ≤ nv.getD k 0 :=
      npArgmin_getD_le nv hnv_ne (nv.getD k 0)
        (getD_mem_of_lt nv k (by omega))
    by_cases hc : nv.getD k 0 < s.S_vals.getD k 0
    · rw [if_pos hc]
      split
      · exact hargle
      · exact le_trans (le_of_not_lt (by assumption)) hargle
    · rw [if_neg hc]
      have hsv : s.S_bestval ≤ s.S_vals.getD k 0 :=
        hinv _ (getD_mem_of_lt s.S_vals k (by omega))
      split
      · exact le_trans (le_of_lt (by assumption)) hsv
      · exact hsv
  · intro s np nv h hne v hv
    rcases updatePopulation_zero s np nv h with ⟨h1, h2⟩
    rw [h1] at hv
    rw [h2]
    exact npArgmin_getD_le nv hne v hv

/-- Witness for C2: one selection step and a one-step sequence from
`sBase`, plus the invariant established by the very first update. -/
theorem claim_C2_witness :
    (updatePopulation sBase [[7]] [3]).S_bestval ≤ sBase.S_bestval
    ∧ (runUpdates sBase [([[7]], [3])]).S_bestval ≤ sBase.S_bestval
    ∧ (updatePopulation sBase0 [[7]] [3]).S_bestval ≤ 3 := by
  refine ⟨claim_C2.1 sBase [[7]] [3] (by norm_num [sBase]),
    claim_C2.2.1 sBase [([[7]], [3])] (by norm_num [sBase]),
    claim_C2.2.2.2 sBase0 [[7]] [3] rfl (by norm_num) 3 ?_⟩
  rw [(updatePopulation_zero sBase0 [[7]] [3] rfl).1]
  norm_num

/-- Claim C6: the four rotation offsets `ind = np.random.permutation(4)+1`
used by `modify` to build `a2..a5` form a permutation of `{1,2,3,4}`, and
under the precondition `pop_size ≥ 5` each of them is nonzero modulo
`pop_size`, so no index rotation is a degenerate zero-shift.
(`perm4` ranges over the possible outputs of `np.random.permutation(4)`,
i.e. the permutations of `0..3`.) -/
theorem claim_C6 (perm4 : List Nat) (hperm : perm4.Perm (List.range 4))
    (pop_size : Nat) (hpop : 5 ≤ pop_size) :
    (mkInd perm4).Perm [1, 2, 3, 4]
    ∧ ∀ o ∈ mkInd perm4, o % pop_size ≠ 0 := by
  have hp : (mkInd perm4).Perm [1, 2, 3, 4] := by
    have h2 := hperm.map (fun x => x + 1)
    have hr : (List.range 4).map (fun x => x + 1) = [1, 2, 3, 4] := by decide
    rw [hr] at h2
    exact h2
  refine ⟨hp, ?_⟩
  intro o ho
  have hmem : o ∈ ([1, 2, 3, 4] : List Nat) := hp.mem_iff.mp ho
  have h14 : 1 ≤ o ∧ o ≤ 4 := by
    simp [List.mem_cons] at hmem
    rcases hmem with rfl | rfl | rfl | rfl <;> omega
  have hlt : o < pop_size := by omega
  rw [Nat.mod_eq_of_lt hlt]
  omega

/-- Witness for C6 at the concrete permutation `[2,0,3,1]` and
`pop_size = 5`. -/
theorem claim_C6_witness :
    (mkInd [2, 0, 3, 1]).Perm [1, 2, 3, 4] ∧ (3 : Nat) % 5 ≠ 0 :=
  ⟨(claim_C6 [2, 0, 3, 1] (by decide) 5 (by norm_num)).1,
   (claim_C6 [2, 0, 3, 1] (by decide) 5 (by norm_num)).2 3 (by decide)⟩

/-! Convergence predicate (claim C5) -/

theorem zipAbsAll_iff (row p0 : List Rat) (crit : Rat) (dim : Nat)
    (hr : row.length = dim) (hp : p0.length = dim) :
    ((List.zipWith (fun a b => |a - b|) row p0).all fun d => decide (d ≤ crit)) = true
      ↔ ∀ j < dim, |row.getD j 0 - p0.getD j 0| ≤ crit := by
  rw [List.all_eq_true]
  have hlen : (List.zipWith (fun a b => |a - b|) row p0).length = dim := by
    simp [List.length_zipWith, hr, hp]
  constructor
  · intro h j hj
    have hjz : j < (List.zipWith (fun a b => |a - b|) row p0).length := by omega
    have hjr : j < row.length := by omega
    have hjp : j < p0.length := by omega
    have hval := h _ (List.getElem_mem hjz)
    rw [List.getElem_zipWith] at hval
    rw [List.getD_eq_getElem _ _ hjr, List.getD_eq_getElem _ _ hjp]
    exact of_decide_eq_true hval
  · intro h d hd
    obtain ⟨j, hj, rfl⟩ := List.mem_iff_getElem.mp hd
    rw [List.getElem_zipWith]
    apply decide_eq_true
    have hjr : j < row.length := by omega
    have hjp : j < p0.length := by omega
    have h2 := h j (by omega)
    rwa [List.getD_eq_getElem _ _ hjr, List.getD_eq_getElem _ _ hjp] at h2

theorem popConvList_iff (crit : Rat) (dim : Nat) (pop : List (List Rat))
    (hrows : ∀ row ∈ pop, row.length = dim) :
    (pop.all fun row =>
        (List.zipWith (fun a b => |a - b|) row (pop.headD [])).all fun d =>
          decide (d ≤ crit)) = true
      ↔ ∀ row ∈ pop, ∀ j < dim,
          |row.getD j 0 - (pop.headD []).getD j 0| ≤ crit := by
  rw [List.all_eq_true]
  cases pop with
  | nil => simp
  | cons p0 rest =>
    have hp : p0.length = dim := hrows p0 (List.mem_cons_self _ _)
    constructor
    · intro h row hrow
      exact (zipAbsAll_iff row ((p0 :: rest).headD []) crit dim
        (hrows row hrow) hp).mp (h row hrow)
    · intro h row hrow
      exact (zipAbsAll_iff row ((p0 :: rest).headD []) crit dim
        (hrows row hrow) hp).mpr (h row hrow)

theorem has_converged_iff (s : DEState) :
    has_converged s = true ↔
      (s.cur_iter > s.itermax ∨ s.S_bestval < s.y_conv_crit
        ∨ populationConverged s s.pop = true) := by
  unfold has_converged
  by_cases h1 : s.cur_iter > s.itermax <;>
  by_cases h2 : s.S_bestval < s.y_conv_crit <;>
  by_cases h3 : populationConverged s s.pop = true <;>
  simp [h1, h2, h3]

/-- Claim C5: `has_converged` returns True exactly when (a) the iteration
count exceeds `itermax`, or (b) the stored best value is below
`y_conv_crit`, or (c) every population member lies within `x_conv_crit`
of member 0 in every dimension; and — the predicate being a pure function
of the unchanged state — repeated calls without new data keep returning
True. -/
theorem claim_C5 (s : DEState) (hrows : ∀ row ∈ s.pop, row.length = s.dim) :
    (has_converged s = true ↔ specConverged s)
    ∧ (has_converged s = true →
        ∀ n : Nat, (List.replicate n (has_converged s)).all id = true) := by
  constructor
  · rw [has_converged_iff]
    unfold specConverged
    exact or_congr Iff.rfl (or_congr Iff.rfl
      (popConvList_iff s.x_conv_crit s.dim s.pop hrows))
  · intro h n
    rw [List.all_eq_true]
    intro b hb
    rw [List.eq_of_mem_replicate hb, h]
    rfl

/-- Witness for C5 at `sBase`: the single-member population has collapsed
(condition (c)), so `has_converged` returns True. -/
theorem claim_C5_witness : has_converged sBase = true := by
  have hrows : ∀ row ∈ sBase.pop, row.length = sBase.dim := by
    intro row hrow
    simp [sBase] at hrow
    subst hrow
    rfl
  exact (claim_C5 sBase hrows).1.mpr (Or.inr (Or.inr (by
    intro row hrow j hj
    simp [sBase] at hrow
    subst hrow
    simp [sBase])))

/-! Constraint re-evolution (claim C4) -/

theorem boolSelect_eq_filter (nlc : List Rat → List Rat) :
    ∀ pop : List (List Rat),
      boolSelect pop (checkConstraints nlc pop) = pop.filter (feasible nlc) := by
  intro pop
  induction pop with
  | nil => rfl
  | cons x xs ih =>
    by_cases h : feasible nlc x <;>
      simp [boolSelect, checkConstraints, List.filter_cons, h] at ih ⊢ <;>
      exact ih

theorem mem_boolSelect_feasible (nlc : List Rat → List Rat)
    (pop : List (List Rat)) :
    ∀ m ∈ boolSelect pop (checkConstraints nlc pop), feasible nlc m = true := by
  rw [boolSelect_eq_filter]
  intro m hm
  exact (List.mem_filter.mp hm).2

theorem reEvolveLoop_spec (s : DEState) (M : NpModel) (nlc : List Rat → List Rat) :
    ∀ (fuel : Nat) (g : NpRandom) (popNew : List (List Rat))
      (out : List (List Rat) × NpRandom),
      (∀ m ∈ popNew, feasible nlc m = true) →
      reEvolveLoop s M nlc fuel g popNew = some out →
      s.pop_size ≤ out.1.length ∧ ∀ m ∈ out.1, feasible nlc m = true := by
  intro fuel
  induction fuel with
  | zero =>
    intro g popNew out _ hout
    exact absurd hout (by simp [reEvolveLoop])
  | succ fuel ih =>
    intro g popNew out h hout
    unfold reEvolveLoop at hout
    split at hout
    · cases hout
      exact ⟨by assumption, h⟩
    · refine ih _ _ _ ?_ hout
      intro m hm
      rcases List.mem_append.mp hm with hm1 | hm2
      · exact h m hm1
      · exact mem_boolSelect_feasible nlc _ m hm2

/-- Claim C4: whenever `enforceConstrReEvolve` terminates it returns a
population of exactly `pop_size` rows, every one of which satisfies the
constraint filter, so the population size never shrinks below `pop_size`
across an evolve + re-evolve cycle. -/
theorem claim_C4 (s : DEState) (M : NpModel) (nlc : List Rat → List Rat)
    (fuel : Nat) (g : NpRandom) (pop : List (List Rat))
    (out : List (List Rat) × NpRandom)
    (hout : enforceConstrReEvolve s M nlc fuel g pop = some out) :
    out.1.length = s.pop_size ∧ ∀ m ∈ out.1, feasible nlc m = true := by
  unfold enforceConstrReEvolve at hout
  cases hloop : reEvolveLoop s M nlc fuel g
      (boolSelect pop (checkConstraints nlc pop)) with
  | none => rw [hloop] at hout; cases hout
  | some pn =>
    rw [hloop] at hout
    cases hout
    obtain ⟨hge, hfeas⟩ := reEvolveLoop_spec s M nlc fuel g
      (boolSelect pop (checkConstraints nlc pop)) pn
      (mem_boolSelect_feasible nlc pop) hloop
    constructor
    · show (pn.1.take s.pop_size).length = s.pop_size
      rw [List.length_take]
      omega
    · intro m hm
      exact hfeas m (List.mem_of_mem_take hm)

/-! Constraint resampling (claim C3) -/

theorem resampleLoop_spec (s : DEState) (M : NpModel) (nlc : List Rat → List Rat) :
    ∀ (rem ctr : Nat) (g : NpRandom) (ele : List Rat),
      (resampleLoop s M nlc rem ctr g ele).2.1 ≤ ctr + rem
      ∧ (feasible nlc (resampleLoop s M nlc rem ctr g ele).1 = true
          ∨ (resampleLoop s M nlc rem ctr g ele).2.1 = ctr + rem) := by
  intro rem
  induction rem with
  | zero =>
    intro ctr g ele
    simp [resampleLoop]
  | succ rem ih =>
    intro ctr g ele
    unfold resampleLoop
    split
    · constructor
      · show ctr ≤ ctr + (rem + 1)
        omega
      · left
        assumption
    · rcases ih (ctr + 1) (drawPopulationMember s M g).2
        (drawPopulationMember s M g).1 with ⟨h1, h2⟩
      constructor
      · exact h1.trans (by omega)
      · rcases h2 with h2 | h2
        · left; exact h2
        · right; exact h2.trans (by omega)

/-- Claim C3 (amended): each member of the population handed to
`enforceConstrResample` is rechecked and redrawn for at most
`pop_size * 100` attempts; the function is total (non-fatal) and keeps one
member per input member, and every returned member either passes the
filter or — the attempt budget being exhausted — is the final redrawn
vector (not the original member; see the counterexample), still failing
the filter. -/
theorem claim_C3 (s : DEState) (M : NpModel) (nlc : List Rat → List Rat) :
    (∀ (rem ctr : Nat) (g : NpRandom) (ele : List Rat),
        (resampleLoop s M nlc rem ctr g ele).2.1 ≤ ctr + rem
        ∧ (feasible nlc (resampleLoop s M nlc rem ctr g ele).1 = true
            ∨ (resampleLoop s M nlc rem ctr g ele).2.1 = ctr + rem))
    ∧ (∀ (g : NpRandom) (pop : List (List Rat)),
        (enforceConstrResample s M nlc g pop).1.length = pop.length
        ∧ ∀ m ∈ (enforceConstrResample s M nlc g pop).1,
            feasible nlc m = true
            ∨ (feasible nlc m = false
               ∧ ∃ g0 ele g1,
                  resampleLoop s M nlc (s.pop_size * 100) 0 g0 ele
                    = (m, s.pop_size * 100, g1))) := by
  refine ⟨resampleLoop_spec s M nlc, ?_⟩
  intro g pop
  induction pop generalizing g with
  | nil => exact ⟨rfl, by simp [enforceConstrResample]⟩
  | cons ele rest ih =>
    constructor
    · show _ + 1 = rest.length + 1
      rw [(ih _).1]
    · intro m hm
      rcases List.mem_cons.mp hm with hm1 | hm2
      · by_cases hf : feasible nlc m = true
        · left; exact hf
        · right
          have hf2 : feasible nlc m = false := by
            cases hfe : feasible nlc m
            · rfl
            · exact absurd hfe hf
          refine ⟨hf2, g, ele,
            (resampleLoop s M nlc (s.pop_size * 100) 0 g ele).2.2, ?_⟩
          rcases (resampleLoop_spec s M nlc (s.pop_size * 100) 0 g ele).2 with h | h
          · rw [← hm1] at h
            exact absurd h hf
          · have hc : (resampleLoop s M nlc (s.pop_size * 100) 0 g ele).2.1
                = s.pop_size * 100 := by omega
            rw [hm1]
            calc resampleLoop s M nlc (s.pop_size * 100) 0 g ele
                = ((resampleLoop s M nlc (s.pop_size * 100) 0 g ele).1,
                   (resampleLoop s M nlc (s.pop_size * 100) 0 g ele).2.1,
                   (resampleLoop s M nlc (s.pop_size * 100) 0 g ele).2.2) := rfl
              _ = ((resampleLoop s M nlc (s.pop_size * 100) 0 g ele).1,
                   s.pop_size * 100,
                   (resampleLoop s M nlc (s.pop_size * 100) 0 g ele).2.2) := by
                  rw [hc]
      · exact (ih _).2 m hm2

theorem feasible_nlcAlwaysFail (x : List Rat) :
    feasible nlcAlwaysFail x = false := rfl

theorem range_one_eq : List.range 1 = [0] := by decide

theorem drawHalf (g : NpRandom) :
    (drawPopulationMember sBase mHalf g).1 = [1/2] := by
  show affineDraw sBase.lower_bds sBase.upper_bds
      ((List.range sBase.dim).map (fun i => mHalf.sample g.seed (g.idx + i))) = [1/2]
  have hr : sBase.dim = 1 := rfl
  rw [hr, range_one_eq]
  show [(0 : Rat) + 1/2 * (1 - 0)] = [1/2]
  norm_num [List.cons.injEq]

theorem resampleLoop_fail_half :
    ∀ (rem ctr : Nat) (g : NpRandom),
      (resampleLoop sBase mHalf nlcAlwaysFail rem ctr g [1/2]).1 = [1/2] := by
  intro rem
  induction rem with
  | zero => intro ctr g; rfl
  | succ rem ih =>
    intro ctr g
    unfold resampleLoop
    rw [if_neg (by rw [feasible_nlcAlwaysFail]; exact Bool.false_ne_true)]
    rw [drawHalf]
    exact ih (ctr + 1) (drawPopulationMember sBase mHalf g).2

theorem resampleLoop_fail_from_zero (rem ctr : Nat) (g : NpRandom) :
    (resampleLoop sBase mHalf nlcAlwaysFail (rem + 1) ctr g [0]).1 = [1/2] := by
  unfold resampleLoop
  rw [if_neg (by rw [feasible_nlcAlwaysFail]; exact Bool.false_ne_true)]
  rw [drawHalf]
  exact resampleLoop_fail_half rem (ctr + 1) (drawPopulationMember sBase mHalf g).2

/-- Counterexample to claim C3 as stated: with an always-failing
constraint the exhausted member left in place is the LAST REDRAWN vector
`[1/2]`, not the original member `[0]` — so "every returned member
either passed the filter or is the original member kept after
exhaustion" fails. -/
theorem claim_C3_counterexample :
    feasible nlcAlwaysFail
        ((enforceConstrResample sBase mHalf nlcAlwaysFail ⟨1000, 0⟩ [[0]]).1.getD 0 [])
      = false
    ∧ (enforceConstrResample sBase mHalf nlcAlwaysFail ⟨1000, 0⟩ [[0]]).1.getD 0 []
        = [1/2]
    ∧ ([1/2] : List Rat) ≠ [0] := by
  have h1 : (enforceConstrResample sBase mHalf nlcAlwaysFail ⟨1000, 0⟩ [[0]]).1
      = [(resampleLoop sBase mHalf nlcAlwaysFail (sBase.pop_size * 100) 0
            ⟨1000, 0⟩ [0]).1] := rfl
  have h2 : (resampleLoop sBase mHalf nlcAlwaysFail (sBase.pop_size * 100) 0
      ⟨1000, 0⟩ [0]).1 = [1/2] := by
    have hb : sBase.pop_size * 100 = 99 + 1 := rfl
    rw [hb]
    exact resampleLoop_fail_from_zero 99 0 ⟨1000, 0⟩
  rw [h1, h2]
  refine ⟨rfl, rfl, ?_⟩
  intro he
  have := List.head_eq_of_cons_eq he
  norm_num at this

/-- Witness for C3: the attempt counter respects the budget, and a
feasible member is returned unchanged by resampling. -/
theorem claim_C3_witness :
    (resampleLoop sBase mHalf nlcAlwaysOk 100 0 ⟨1000, 0⟩ [0]).2.1 ≤ 0 + 100
    ∧ feasible nlcAlwaysOk ([0] : List Rat) = true := by
  refine ⟨((claim_C3 sBase mHalf nlcAlwaysOk).1 100 0 ⟨1000, 0⟩ [0]).1, ?_⟩
  have hd := ((claim_C3 sBase mHalf nlcAlwaysOk).2 ⟨1000, 0⟩ [[0]]).2 [0] (by decide)
  rcases hd with h | h
  · exact h
  · exact absurd h.1 (by decide)

/-- Witness for C4: with an always-satisfied constraint and two feasible
offspring, a single loop pass returns them unchanged. -/
theorem claim_C4_witness :
    ((enforceConstrReEvolve sBase2 mHalf nlcAlwaysOk 1 ⟨1000, 0⟩
        [[0], [1]]).map (fun out => out.1.length)) = some sBase2.pop_size := by
  have hout : enforceConstrReEvolve sBase2 mHalf nlcAlwaysOk 1 ⟨1000, 0⟩ [[0], [1]]
      = some ([[0], [1]], ⟨1000, 0⟩) := by decide
  rw [hout]
  exact congrArg some (claim_C4 sBase2 mHalf nlcAlwaysOk 1 ⟨1000, 0⟩ [[0], [1]]
    ([[0], [1]], ⟨1000, 0⟩) hout).1

/-! Construction-time determinism (claim C10) -/

/-- Claim C10: the constructor ends in `np.random.seed(1000)`, so the
generator state it hands to the run is the fixed seeded state `⟨1000, 0⟩`
whatever the ambient generator state was; consequently two optimizers
constructed with identical parameters and driven with the same pure
target and constraint functions produce identical runs — the same initial
population, the same offspring, and the same best vector/value at every
iteration count `n` (the run state at `n` determines all of these). -/
theorem claim_C10 (M : NpModel) (nlc : List Rat → List Rat)
    (target : List (List Rat) → List Rat) (fuel : Nat)
    (amb1 amb2 : NpRandom) (p : DEParams) :
    (deInit amb1 p).rng = ⟨1000, 0⟩
    ∧ deInit amb1 p = deInit amb2 p
    ∧ ∀ n : Nat,
        deRun M nlc target fuel amb1 p n = deRun M nlc target fuel amb2 p n :=
  ⟨rfl, rfl, fun _ => rfl⟩

end GC3
